import Mathlib

/-!
Verification of the deviation-detection pipeline of the Homeric formula
analysis repository (src/deviation_detection_engine.py).

Modelling conventions:
* Python dicts keyed by strings are association lists `List (String × _)`;
  lookup is `List.find?` on the key (first match, as in a dict).
* Python floats are modelled by exact rationals `ℚ`; the thresholds 0.1 and
  0.3 become `1/10` and `3/10`.
* Surprisal values live in `EReal`: the finite value `-log2 p` or the
  sentinel `float('inf')`, modelled by `⊤`.
* A `collections.Counter` fed by a stream of pattern occurrences is
  represented by the stream itself (`detection_stream`); the counter lookup
  is `List.count`, its key set is `List.dedup` (same set of distinct keys;
  only order-independent sums and lookups of the counter are ever used).
* Python `pattern in line` (substring containment) is `substrB`.
* `list.sort(key=..., reverse=True)` is a stable descending sort, modelled
  by `List.insertionSort` with the relation `surprisalGE`.
-/

namespace Homeric

/-- One entry of the per-character pattern list built by
`build_formula_patterns` (source lines 42-49). -/
structure FormulaRecord where
  pattern : String
  original : String
  ftype : String
  position : String
  frequency : Nat
  semantic : String
deriving DecidableEq

/-- A character mention as produced by Phase 1 (fields used by the engine:
`character`, `line_num`, `line`). -/
structure Mention where
  character : String
  line_num : Nat
  line : String
deriving DecidableEq

/-- A formula entry of the confirmed-formula database
(`formulae_by_type` values). -/
structure DbFormula where
  pattern : String
  frequency : Nat
  position : String
  semantic_category : String
deriving DecidableEq

/-- A per-character record of the confirmed-formula database. -/
structure DbCharacter where
  formulae_by_type : List (String × List DbFormula)
deriving DecidableEq

/-- The confirmed-formula database: character → data. -/
abbrev Database := List (String × DbCharacter)

/-- The pattern index: character → list of formula records. -/
abbrev PatternIndex := List (String × List FormulaRecord)

/-- Dict lookup in the database. -/
def lookupDb (db : Database) (c : String) : Option DbCharacter :=
  (db.find? (fun e => e.1 == c)).map (fun e => e.2)

/-- Dict lookup in the pattern index (`character not in formula_patterns`
checks in the source are `lookupIndex _ _ = none`). -/
def lookupIndex (idx : PatternIndex) (c : String) : Option (List FormulaRecord) :=
  (idx.find? (fun e => e.1 == c)).map (fun e => e.2)

/-- The model of Python `str.lower()`: lower-case every character. -/
def strLower (s : String) : String :=
  String.mk (s.data.map Char.toLower)

/-- Substring containment, the model of the Python `in` operator on
strings: the pattern occurs contiguously in `s`. -/
def substrB (pat s : String) : Bool :=
  s.data.tails.any (fun t => pat.data.isPrefixOf t)

/-- The flat pattern list built for one character: every formula of every
type, pattern lower-cased for matching, original kept for display
(source lines 39-49). -/
def build_char_patterns (d : DbCharacter) : List FormulaRecord :=
  d.formulae_by_type.flatMap (fun e =>
    e.2.map (fun f =>
      { pattern := strLower f.pattern
        original := f.pattern
        ftype := e.1
        position := f.position
        frequency := f.frequency
        semantic := f.semantic_category }))

/-- `build_formula_patterns` (source lines 29-53): database → index. -/
def build_formula_patterns (db : Database) : PatternIndex :=
  db.map (fun e => (e.1, build_char_patterns e.2))

/-- `detect_formulae_in_mention` (source lines 55-71): all of the
character's records whose stored pattern occurs in the lower-cased line;
empty when the character has no index entry. -/
def detect_formulae_in_mention (m : Mention) (idx : PatternIndex) : List FormulaRecord :=
  match lookupIndex idx m.character with
  | none => []
  | some recs => recs.filter (fun f => substrB f.pattern (strLower m.line))

/-- The per-character expectation profile. `detection_stream` is the stream
of pattern occurrences fed to the `Counter` (source lines 89-92), in
order; the counter itself and the probability dict are recovered by
`formula_counts` and `formula_probabilities` below. -/
structure ExpectationProfile where
  total_mentions : Nat
  detection_stream : List String
deriving DecidableEq

/-- Counter lookup: `formula_counts[pattern]` (0 when absent, as for a
`Counter`). -/
def ExpectationProfile.formula_counts (e : ExpectationProfile) (p : String) : Nat :=
  e.detection_stream.count p

/-- The model of `sum(formula_counts.values())` (source line 135): the sum
of the counter over its distinct keys. -/
def ExpectationProfile.sum_formula_counts (e : ExpectationProfile) : Nat :=
  (e.detection_stream.dedup.map (fun p => e.detection_stream.count p)).sum

/-- The model of `formula_probabilities.get(pattern, 0)`: the dict maps
each counted pattern to `count / total_mentions if total_mentions > 0 else 0`
(source line 97) and the lookup defaults to 0, which coincides with this
total function (a pattern with count 0 is absent from the dict). -/
def ExpectationProfile.formula_probabilities (e : ExpectationProfile) (p : String) : ℚ :=
  if 0 < e.total_mentions then (e.formula_counts p : ℚ) / (e.total_mentions : ℚ) else 0

/-- The profile computed for one character by the body of the loop in
`calculate_formula_expectations` (source lines 82-103). -/
def charProfile (mentions : List Mention) (idx : PatternIndex) (c : String) : ExpectationProfile :=
  let char_mentions := mentions.filter (fun m => m.character == c)
  { total_mentions := char_mentions.length
    detection_stream :=
      char_mentions.flatMap (fun m =>
        (detect_formulae_in_mention m idx).map (fun f => f.pattern)) }

/-- `calculate_formula_expectations` (source lines 73-105): one profile per
key of the pattern index. -/
def calculate_formula_expectations (mentions : List Mention) (idx : PatternIndex) :
    List (String × ExpectationProfile) :=
  idx.map (fun e => (e.1, charProfile mentions idx e.1))

/-- Dict lookup in the expectations mapping (`character not in expectations`
is `lookupProfile _ _ = none`). -/
def lookupProfile (exp : List (String × ExpectationProfile)) (c : String) :
    Option ExpectationProfile :=
  (exp.find? (fun e => e.1 == c)).map (fun e => e.2)

/-- `calculate_surprisal` (source lines 107-115): `-log2 p`, with the
positive-infinity sentinel at `p = 0`. -/
noncomputable def calculate_surprisal (probability : ℚ) : EReal :=
  if probability = 0 then ⊤ else (((-Real.logb 2 (probability : ℝ)) : ℝ) : EReal)

/-- The analysis record built by `analyze_mention_surprisal`.
`primary_formula = none` models the absence of the key in the
bare-mention dict. -/
structure MentionAnalysis where
  mention : Mention
  detected_formulae : List FormulaRecord
  primary_formula : Option FormulaRecord
  type : String
  probability : ℚ
  surprisal : EReal
  is_deviation : Bool

/-- The model of Python `max(f :: l, key=frequency)`: fold keeping the
current best, replacing it only on a strictly larger key, so the first
element attaining the maximum wins. -/
def pyMax1 (f : FormulaRecord) (l : List FormulaRecord) : FormulaRecord :=
  l.foldl (fun g x => if g.frequency < x.frequency then x else g) f

/-- The bare-mention probability of source lines 134-137:
`bare_count / total` with `bare_count = total - sum(formula_counts.values())`
computed in exact arithmetic, and the explicit 0 guard for
`total_mentions = 0`. Not clamped below: it can be negative. -/
def bareProb (prof : ExpectationProfile) : ℚ :=
  if 0 < prof.total_mentions
    then ((prof.total_mentions : ℚ) - (prof.sum_formula_counts : ℚ)) / (prof.total_mentions : ℚ)
    else 0

/-- `analyze_mention_surprisal` (source lines 117-163). -/
noncomputable def analyze_mention_surprisal (m : Mention) (idx : PatternIndex)
    (expectations : List (String × ExpectationProfile)) : Option MentionAnalysis :=
  match lookupProfile expectations m.character with
  | none => none
  | some prof =>
    match detect_formulae_in_mention m idx with
    | [] =>
      some
        { mention := m
          detected_formulae := []
          primary_formula := none
          type := "bare_mention"
          probability := bareProb prof
          surprisal := if 0 < bareProb prof then calculate_surprisal (bareProb prof) else ⊤
          is_deviation := decide (bareProb prof < 3 / 10) }
    | f :: fs =>
      let primary := pyMax1 f fs
      let formula_prob := prof.formula_probabilities primary.pattern
      some
        { mention := m
          detected_formulae := f :: fs
          primary_formula := some primary
          type := "formulaic"
          probability := formula_prob
          surprisal := if 0 < formula_prob then calculate_surprisal formula_prob else ⊤
          is_deviation := decide (formula_prob < 1 / 10) }

/-- `find_deviations` (source lines 165-177): analyse each mention, keep
the non-`None` results in order. -/
noncomputable def find_deviations (mentions : List Mention) (idx : PatternIndex)
    (expectations : List (String × ExpectationProfile)) : List MentionAnalysis :=
  mentions.filterMap (fun m => analyze_mention_surprisal m idx expectations)

/-- The ordering used by the descending sort: `a` may come before `b` when
the surprisal of `b` is at most that of `a`. -/
def surprisalGE (a b : MentionAnalysis) : Prop :=
  b.surprisal ≤ a.surprisal

noncomputable instance : DecidableRel surprisalGE :=
  fun a b => inferInstanceAs (Decidable (b.surprisal ≤ a.surprisal))

instance : IsTotal MentionAnalysis surprisalGE :=
  ⟨fun a b => le_total b.surprisal a.surprisal⟩

instance : IsTrans MentionAnalysis surprisalGE :=
  ⟨fun _ _ _ hab hbc => le_trans hbc hab⟩

/-- `identify_high_surprisal_moments` (source lines 179-187): keep the
analyses with surprisal strictly above the threshold, then sort them
descending by surprisal; `list.sort` is stable, modelled by the stable
`insertionSort`. -/
noncomputable def identify_high_surprisal_moments (analyses : List MentionAnalysis)
    (surprisal_threshold : EReal) : List MentionAnalysis :=
  List.insertionSort surprisalGE
    (analyses.filter (fun a => decide (surprisal_threshold < a.surprisal)))

/-- One serialised entry of `save_deviation_data` (source lines 264-277). -/
structure SerializedEntry where
  line_num : Nat
  character : String
  line : String
  type : String
  probability : ℚ
  surprisal : ℝ
  is_deviation : Bool
  detected_formulae : Option (List String)
  primary_formula : Option String

/-- Serialisation of one analysis (source lines 264-277): the infinite
surprisal sentinel becomes the number 999, finite surprisal is stored
unchanged; the formula fields are present only on formulaic entries. -/
noncomputable def serialize_analysis (a : MentionAnalysis) : SerializedEntry :=
  { line_num := a.mention.line_num
    character := a.mention.character
    line := a.mention.line
    type := a.type
    probability := a.probability
    surprisal := if a.surprisal = ⊤ then (999 : ℝ) else a.surprisal.toReal
    is_deviation := a.is_deviation
    detected_formulae :=
      if a.type = "formulaic" then some (a.detected_formulae.map (fun f => f.original)) else none
    primary_formula :=
      if a.type = "formulaic" then a.primary_formula.map (fun f => f.original) else none }

/-- The saved data object of `save_deviation_data` (source lines 280-284). -/
structure DeviationData where
  all_analyses : List SerializedEntry
  high_surprisal_count : Nat
  high_surprisal_threshold : ℚ

/-- `save_deviation_data` (source lines 258-287). -/
noncomputable def save_deviation_data (analyses high_surprisal : List MentionAnalysis) :
    DeviationData :=
  { all_analyses := analyses.map serialize_analysis
    high_surprisal_count := high_surprisal.length
    high_surprisal_threshold := 3 }

/-- The number of a character's mentions in which a given pattern is
detected at least once. -/
def mentions_detecting (mentions : List Mention) (idx : PatternIndex) (c p : String) : Nat :=
  (((mentions.filter (fun m => m.character == c)).filter
    (fun m => (detect_formulae_in_mention m idx).any (fun f => f.pattern == p)))).length

/-- The sum of the values of the probability dict of a profile: one term
per distinct counted pattern. -/
def probabilities_sum (e : ExpectationProfile) : ℚ :=
  (e.detection_stream.dedup.map (fun p => e.formula_probabilities p)).sum

/-- Dummy mention used to build concrete analysis records. -/
def dummyMention : Mention :=
  { character := "x", line_num := 0, line := "" }

/-- A concrete analysis record with a prescribed surprisal value. -/
def mkAnalysis (s : EReal) : MentionAnalysis :=
  { mention := dummyMention
    detected_formulae := []
    primary_formula := none
    type := "bare_mention"
    probability := 0
    surprisal := s
    is_deviation := false }

/-- C1: `calculate_surprisal` returns `-log2 p` for positive probability,
the infinity sentinel at 0, is strictly decreasing on the positive
probabilities, and vanishes at probability 1. -/
theorem calculate_surprisal_spec :
    (∀ p : ℚ, 0 < p → calculate_surprisal p = (((-Real.logb 2 (p : ℝ)) : ℝ) : EReal))
    ∧ calculate_surprisal 0 = ⊤
    ∧ (∀ p q : ℚ, 0 < p → p < q → q ≤ 1 → calculate_surprisal q < calculate_surprisal p)
    ∧ calculate_surprisal 1 = 0 := by
  refine ⟨fun p hp => ?_, ?_, fun p q hp hpq _ => ?_, ?_⟩
  · rw [calculate_surprisal, if_neg (ne_of_gt hp)]
  · rw [calculate_surprisal, if_pos rfl]
  · have hq : (0 : ℚ) < q := lt_trans hp hpq
    rw [calculate_surprisal, calculate_surprisal, if_neg (ne_of_gt hp), if_neg (ne_of_gt hq)]
    rw [EReal.coe_lt_coe_iff]
    have h2 : (1 : ℝ) < 2 := by norm_num
    have hpr : (0 : ℝ) < (p : ℝ) := by exact_mod_cast hp
    have hpqr : (p : ℝ) < (q : ℝ) := by exact_mod_cast hpq
    have := Real.logb_lt_logb h2 hpr hpqr
    linarith
  · rw [calculate_surprisal, if_neg (by norm_num)]
    norm_num [Real.logb_one]

/-- Witness for C1: concrete instance of strict monotonicity at
probabilities 1/2 and 1. -/
theorem calculate_surprisal_spec_witness :
    calculate_surprisal 1 < calculate_surprisal (1 / 2) :=
  calculate_surprisal_spec.2.2.1 (1 / 2) 1 (by norm_num) (by norm_num) (by norm_num)

lemma substrB_iff (pat s : String) : substrB pat s = true ↔ List.IsInfix pat.data s.data := by
  rw [substrB, List.any_eq_true]
  constructor
  · rintro ⟨t, ht, hp⟩
    rw [List.mem_tails] at ht
    rw [List.isPrefixOf_iff_prefix] at hp
    exact List.infix_iff_prefix_suffix.mpr ⟨t, hp, ht⟩
  · intro h
    obtain ⟨t, hp, ht⟩ := List.infix_iff_prefix_suffix.mp h
    exact ⟨t, (List.mem_tails _ _).mpr ht, List.isPrefixOf_iff_prefix.mpr hp⟩

lemma lookupIndex_build (db : Database) (c : String) :
    lookupIndex (build_formula_patterns db) c = (lookupDb db c).map build_char_patterns := by
  induction db with
  | nil => rfl
  | cons e rest ih =>
    by_cases h : e.1 == c
    · simp [lookupIndex, lookupDb, build_formula_patterns, List.find?_cons, h]
    · simp only [lookupIndex, lookupDb, build_formula_patterns, List.map_cons,
        List.find?_cons, h] at ih ⊢
      exact ih

lemma build_char_patterns_lower (d : DbCharacter) (f : FormulaRecord)
    (hf : f ∈ build_char_patterns d) : f.pattern = strLower f.original := by
  rw [build_char_patterns, List.mem_flatMap] at hf
  obtain ⟨e, _, hf⟩ := hf
  rw [List.mem_map] at hf
  obtain ⟨g, _, rfl⟩ := hf
  rfl

/-- C9: the mention scanner returns exactly the character's records whose
(lower-cased) pattern is a literal substring of the lower-cased line text,
and the empty list, not an error, when the character has no index entry. -/
theorem detect_formulae_spec :
    (∀ (idx : PatternIndex) (m : Mention),
      lookupIndex idx m.character = none → detect_formulae_in_mention m idx = [])
    ∧ (∀ (idx : PatternIndex) (m : Mention) (recs : List FormulaRecord),
      lookupIndex idx m.character = some recs →
      detect_formulae_in_mention m idx
        = recs.filter (fun f => substrB f.pattern (strLower m.line)))
    ∧ (∀ (db : Database) (c : String),
      lookupIndex (build_formula_patterns db) c = (lookupDb db c).map build_char_patterns)
    ∧ (∀ (d : DbCharacter) (f : FormulaRecord),
      f ∈ build_char_patterns d → f.pattern = strLower f.original)
    ∧ (∀ pat s : String, substrB pat s = true ↔ List.IsInfix pat.data s.data) := by
  refine ⟨fun idx m h => ?_, fun idx m recs h => ?_, lookupIndex_build,
    build_char_patterns_lower, substrB_iff⟩
  · rw [detect_formulae_in_mention, h]
  · rw [detect_formulae_in_mention, h]

/-- Witness for C9: a concrete one-record index in which the record whose
pattern occurs in the line is detected. -/
theorem detect_formulae_spec_witness :
    detect_formulae_in_mention ⟨"zeus", 1, "So aegis Zeus"⟩
      [("zeus", [⟨"aegis", "Aegis", "epithet", "before", 3, ""⟩])]
      = [(⟨"aegis", "Aegis", "epithet", "before", 3, ""⟩ : FormulaRecord)].filter
          (fun f => substrB f.pattern (strLower "So aegis Zeus")) :=
  detect_formulae_spec.2.1
    [("zeus", [⟨"aegis", "Aegis", "epithet", "before", 3, ""⟩])]
    ⟨"zeus", 1, "So aegis Zeus"⟩
    [⟨"aegis", "Aegis", "epithet", "before", 3, ""⟩]
    (by decide)

lemma pyMax1_cons (f x : FormulaRecord) (xs : List FormulaRecord) :
    pyMax1 f (x :: xs) = pyMax1 (if f.frequency < x.frequency then x else f) xs :=
  rfl

lemma le_pyMax1_head : ∀ (fs : List FormulaRecord) (f : FormulaRecord),
    f.frequency ≤ (pyMax1 f fs).frequency := by
  intro fs
  induction fs with
  | nil => exact fun f => le_refl _
  | cons x xs ih =>
    intro f
    rw [pyMax1_cons]
    by_cases h : f.frequency < x.frequency
    · rw [if_pos h]
      exact le_trans (le_of_lt h) (ih x)
    · rw [if_neg h]
      exact ih f

lemma le_pyMax1 : ∀ (fs : List FormulaRecord) (f : FormulaRecord),
    ∀ g ∈ f :: fs, g.frequency ≤ (pyMax1 f fs).frequency := by
  intro fs
  induction fs with
  | nil =>
    intro f g hg
    rw [List.mem_singleton] at hg
    exact hg ▸ le_refl _
  | cons x xs ih =>
    intro f g hg
    rw [pyMax1_cons]
    rcases List.mem_cons.mp hg with rfl | hg
    · by_cases h : g.frequency < x.frequency
      · rw [if_pos h]
        exact le_trans (le_of_lt h) (le_pyMax1_head xs x)
      · rw [if_neg h]
        exact le_pyMax1_head xs g
    · rcases List.mem_cons.mp hg with rfl | hg
      · by_cases h : f.frequency < g.frequency
        · rw [if_pos h]
          exact le_pyMax1_head xs g
        · rw [if_neg h]
          exact le_trans (le_of_not_lt h) (le_pyMax1_head xs f)
      · exact ih _ g (List.mem_cons_of_mem _ hg)

lemma pyMax1_split : ∀ (fs : List FormulaRecord) (f : FormulaRecord),
    ∃ l₁ l₂, f :: fs = l₁ ++ (pyMax1 f fs) :: l₂
      ∧ ∀ g ∈ l₁, g.frequency < (pyMax1 f fs).frequency := by
  intro fs
  induction fs with
  | nil => exact fun f => ⟨[], [], rfl, by simp⟩
  | cons x xs ih =>
    intro f
    rw [pyMax1_cons]
    by_cases h : f.frequency < x.frequency
    · rw [if_pos h]
      obtain ⟨l₁, l₂, heq, hlt⟩ := ih x
      refine ⟨f :: l₁, l₂, by rw [List.cons_append, ← heq], ?_⟩
      intro g hg
      rcases List.mem_cons.mp hg with rfl | hg
      · exact lt_of_lt_of_le h (le_pyMax1_head xs x)
      · exact hlt g hg
    · rw [if_neg h]
      obtain ⟨l₁, l₂, heq, hlt⟩ := ih f
      cases l₁ with
      | nil =>
        have hf : f = pyMax1 f xs := (List.cons.injEq _ _ _ _).mp heq |>.1
        exact ⟨[], x :: xs, by rw [List.nil_append, ← hf], by simp⟩
      | cons a t =>
        have h1 := (List.cons.injEq _ _ _ _).mp heq
        have hfa : f = a := h1.1
        have hxs : xs = t ++ pyMax1 f xs :: l₂ := h1.2
        have hfmem : f ∈ a :: t := by
          rw [hfa]
          exact List.mem_cons_self a t
        have hfm : f.frequency < (pyMax1 f xs).frequency := hlt f hfmem
        refine ⟨f :: x :: t, l₂, ?_, ?_⟩
        · rw [List.cons_append, List.cons_append, ← hxs]
        · intro g hg
          rcases List.mem_cons.mp hg with rfl | hg
          · exact hfm
          rcases List.mem_cons.mp hg with rfl | hg
          · exact lt_of_le_of_lt (le_of_not_lt h) hfm
          · exact hlt g (hfa ▸ List.mem_cons_of_mem a hg)

/-- C3: a mention with a profile and at least one detected formula is
classified formulaic, the primary formula is the detected record with the
highest corpus frequency (first encountered on ties), the probability is
the dict lookup at its pattern (0 when absent) and the deviation flag is
the strict comparison with 1/10. -/
theorem analyze_formulaic_spec (m : Mention) (idx : PatternIndex)
    (exp : List (String × ExpectationProfile)) (prof : ExpectationProfile)
    (f : FormulaRecord) (fs : List FormulaRecord)
    (hprof : lookupProfile exp m.character = some prof)
    (hdet : detect_formulae_in_mention m idx = f :: fs) :
    ∃ a, analyze_mention_surprisal m idx exp = some a
      ∧ a.type = "formulaic"
      ∧ a.primary_formula = some (pyMax1 f fs)
      ∧ (∀ g ∈ f :: fs, g.frequency ≤ (pyMax1 f fs).frequency)
      ∧ (∃ l₁ l₂, f :: fs = l₁ ++ (pyMax1 f fs) :: l₂
          ∧ ∀ g ∈ l₁, g.frequency < (pyMax1 f fs).frequency)
      ∧ a.probability = prof.formula_probabilities (pyMax1 f fs).pattern
      ∧ (prof.formula_counts (pyMax1 f fs).pattern = 0 → a.probability = 0)
      ∧ (a.is_deviation = true ↔ a.probability < 1 / 10)
      ∧ (a.probability = 1 / 10 → a.is_deviation = false) := by
  refine ⟨⟨m, f :: fs, some (pyMax1 f fs), "formulaic",
      prof.formula_probabilities (pyMax1 f fs).pattern,
      if 0 < prof.formula_probabilities (pyMax1 f fs).pattern
        then calculate_surprisal (prof.formula_probabilities (pyMax1 f fs).pattern) else ⊤,
      decide (prof.formula_probabilities (pyMax1 f fs).pattern < 1 / 10)⟩,
    ?_, rfl, rfl, le_pyMax1 fs f, pyMax1_split fs f, rfl, ?_, ?_, ?_⟩
  · simp only [analyze_mention_surprisal, hprof, hdet]
  · intro h0
    simp [ExpectationProfile.formula_probabilities, h0]
  · simp
  · intro h
    have h9 : prof.formula_probabilities (pyMax1 f fs).pattern = 1 / 10 := h
    show decide (prof.formula_probabilities (pyMax1 f fs).pattern < 1 / 10) = false
    rw [h9]
    norm_num

/-- Witness for C3: two detected formulae, the more frequent one is
primary; its empirical probability is 1/2, not a deviation. -/
theorem analyze_formulaic_spec_witness :
    ∃ a, analyze_mention_surprisal ⟨"z", 1, "aab"⟩
        [("z", [⟨"aa", "aa", "epithet", "before", 5, ""⟩,
          ⟨"b", "b", "speech_formula", "after", 7, ""⟩])]
        (calculate_formula_expectations [⟨"z", 1, "aab"⟩, ⟨"z", 2, "qq"⟩]
          [("z", [⟨"aa", "aa", "epithet", "before", 5, ""⟩,
            ⟨"b", "b", "speech_formula", "after", 7, ""⟩])]) = some a
      ∧ a.type = "formulaic"
      ∧ a.primary_formula
          = some (pyMax1 ⟨"aa", "aa", "epithet", "before", 5, ""⟩
              [⟨"b", "b", "speech_formula", "after", 7, ""⟩]) := by
  obtain ⟨a, h1, h2, h3, -⟩ :=
    analyze_formulaic_spec ⟨"z", 1, "aab"⟩
      [("z", [⟨"aa", "aa", "epithet", "before", 5, ""⟩,
        ⟨"b", "b", "speech_formula", "after", 7, ""⟩])]
      (calculate_formula_expectations [⟨"z", 1, "aab"⟩, ⟨"z", 2, "qq"⟩]
        [("z", [⟨"aa", "aa", "epithet", "before", 5, ""⟩,
          ⟨"b", "b", "speech_formula", "after", 7, ""⟩])])
      ⟨2, ["aa", "b"]⟩
      ⟨"aa", "aa", "epithet", "before", 5, ""⟩
      [⟨"b", "b", "speech_formula", "after", 7, ""⟩]
      (by decide) (by decide)
  exact ⟨a, h1, h2, h3⟩

/-- C4: a mention with a profile and no detected formula is classified
bare, with probability `(total - sum of counts) / total` (0 for an unseen
character), the surprisal of that probability (infinite at probability 0)
and the strict 3/10 deviation threshold. -/
theorem analyze_bare_spec (m : Mention) (idx : PatternIndex)
    (exp : List (String × ExpectationProfile)) (prof : ExpectationProfile)
    (hprof : lookupProfile exp m.character = some prof)
    (hdet : detect_formulae_in_mention m idx = []) :
    ∃ a, analyze_mention_surprisal m idx exp = some a
      ∧ a.type = "bare_mention"
      ∧ a.probability = (if 0 < prof.total_mentions
          then ((prof.total_mentions : ℚ) - (prof.sum_formula_counts : ℚ))
            / (prof.total_mentions : ℚ)
          else 0)
      ∧ (prof.total_mentions = 0 → a.probability = 0)
      ∧ (0 < a.probability → a.surprisal = calculate_surprisal a.probability)
      ∧ (a.probability = 0 → a.surprisal = ⊤)
      ∧ (a.is_deviation = true ↔ a.probability < 3 / 10)
      ∧ (a.probability = 3 / 10 → a.is_deviation = false) := by
  refine ⟨⟨m, [], none, "bare_mention", bareProb prof,
      if 0 < bareProb prof then calculate_surprisal (bareProb prof) else ⊤,
      decide (bareProb prof < 3 / 10)⟩,
    ?_, rfl, rfl, ?_, ?_, ?_, ?_, ?_⟩
  · simp only [analyze_mention_surprisal, hprof, hdet]
  · intro h0
    show bareProb prof = 0
    simp [bareProb, h0]
  · intro hpos
    show (if 0 < bareProb prof then calculate_surprisal (bareProb prof) else ⊤)
      = calculate_surprisal (bareProb prof)
    exact if_pos hpos
  · intro h0
    have h9 : bareProb prof = 0 := h0
    show (if 0 < bareProb prof then calculate_surprisal (bareProb prof) else ⊤) = ⊤
    rw [h9]
    norm_num
  · simp
  · intro h
    have h9 : bareProb prof = 3 / 10 := h
    show decide (bareProb prof < 3 / 10) = false
    rw [h9]
    norm_num

/-- Witness for C4: one formulaic and one bare mention out of two, so the
bare probability is 1/2 and the bare mention is not a deviation. -/
theorem analyze_bare_spec_witness :
    ∃ a, analyze_mention_surprisal ⟨"z", 2, "qq"⟩
        [("z", [⟨"aa", "aa", "epithet", "before", 5, ""⟩])]
        (calculate_formula_expectations [⟨"z", 1, "aab"⟩, ⟨"z", 2, "qq"⟩]
          [("z", [⟨"aa", "aa", "epithet", "before", 5, ""⟩])]) = some a
      ∧ a.type = "bare_mention"
      ∧ a.probability = (if 0 < (⟨2, ["aa"]⟩ : ExpectationProfile).total_mentions
          then (((⟨2, ["aa"]⟩ : ExpectationProfile).total_mentions : ℚ)
              - ((⟨2, ["aa"]⟩ : ExpectationProfile).sum_formula_counts : ℚ))
            / ((⟨2, ["aa"]⟩ : ExpectationProfile).total_mentions : ℚ)
          else 0) := by
  obtain ⟨a, h1, h2, h3, -⟩ :=
    analyze_bare_spec ⟨"z", 2, "qq"⟩
      [("z", [⟨"aa", "aa", "epithet", "before", 5, ""⟩])]
      (calculate_formula_expectations [⟨"z", 1, "aab"⟩, ⟨"z", 2, "qq"⟩]
        [("z", [⟨"aa", "aa", "epithet", "before", 5, ""⟩])])
      ⟨2, ["aa"]⟩ (by decide) (by decide)
  exact ⟨a, h1, h2, h3⟩

/-- C7: `find_deviations` analyses mentions in order, producing no record
for a mention whose character has no expectation profile (skipped, not an
error) and exactly one record for every other mention, classified as
exactly one of bare_mention and formulaic. -/
theorem find_deviations_spec :
    (∀ (mentions : List Mention) (idx : PatternIndex)
      (exp : List (String × ExpectationProfile)),
      find_deviations mentions idx exp
        = mentions.filterMap (fun m => analyze_mention_surprisal m idx exp))
    ∧ (∀ (m : Mention) (idx : PatternIndex) (exp : List (String × ExpectationProfile)),
      analyze_mention_surprisal m idx exp = none ↔ lookupProfile exp m.character = none)
    ∧ (∀ (m : Mention) (idx : PatternIndex) (exp : List (String × ExpectationProfile))
      (a : MentionAnalysis), analyze_mention_surprisal m idx exp = some a →
      (a.type = "bare_mention" ∧ ¬ a.type = "formulaic")
      ∨ (a.type = "formulaic" ∧ ¬ a.type = "bare_mention")) := by
  refine ⟨fun _ _ _ => rfl, fun m idx exp => ?_, fun m idx exp a ha => ?_⟩
  · cases h : lookupProfile exp m.character with
    | none => simp [analyze_mention_surprisal, h]
    | some prof =>
      cases hd : detect_formulae_in_mention m idx with
      | nil => simp [analyze_mention_surprisal, h, hd]
      | cons f fs => simp [analyze_mention_surprisal, h, hd]
  · cases h : lookupProfile exp m.character with
    | none => simp [analyze_mention_surprisal, h] at ha
    | some prof =>
      cases hd : detect_formulae_in_mention m idx with
      | nil =>
        simp only [analyze_mention_surprisal, h, hd, Option.some.injEq] at ha
        subst ha
        left
        refine ⟨rfl, ?_⟩
        show ¬ ("bare_mention" : String) = "formulaic"
        decide
      | cons f fs =>
        simp only [analyze_mention_surprisal, h, hd, Option.some.injEq] at ha
        subst ha
        right
        refine ⟨rfl, ?_⟩
        show ¬ ("formulaic" : String) = "bare_mention"
        decide

/-- Witness for C7: a concrete analysed mention is classified as exactly
one of the two classes. -/
theorem find_deviations_spec_witness :
    ((⟨⟨"z", 1, "x"⟩, [], none, "bare_mention", 0, ⊤, true⟩ :
        MentionAnalysis).type = "bare_mention"
      ∧ ¬ (⟨⟨"z", 1, "x"⟩, [], none, "bare_mention", 0, ⊤, true⟩ :
        MentionAnalysis).type = "formulaic")
    ∨ ((⟨⟨"z", 1, "x"⟩, [], none, "bare_mention", 0, ⊤, true⟩ :
        MentionAnalysis).type = "formulaic"
      ∧ ¬ (⟨⟨"z", 1, "x"⟩, [], none, "bare_mention", 0, ⊤, true⟩ :
        MentionAnalysis).type = "bare_mention") := by
  have hprof : lookupProfile [("z", ⟨0, []⟩)] (⟨"z", 1, "x"⟩ : Mention).character
      = some ⟨0, []⟩ := by decide
  have hdet : detect_formulae_in_mention ⟨"z", 1, "x"⟩ [("z", [])] = [] := by decide
  have hbp : bareProb ⟨0, []⟩ = 0 := by simp [bareProb]
  have ha : analyze_mention_surprisal ⟨"z", 1, "x"⟩ [("z", [])] [("z", ⟨0, []⟩)]
      = some ⟨⟨"z", 1, "x"⟩, [], none, "bare_mention", 0, ⊤, true⟩ := by
    simp only [analyze_mention_surprisal, hprof, hdet, hbp]
    norm_num
  exact find_deviations_spec.2.2 ⟨"z", 1, "x"⟩ [("z", [])] [("z", ⟨0, []⟩)]
    ⟨⟨"z", 1, "x"⟩, [], none, "bare_mention", 0, ⊤, true⟩ ha

/-- C10: because one mention may feed several patterns of the counter, the
summed occurrence counts can exceed the total mention count, making the
unclamped bare probability strictly negative on a concrete input; whenever
the bare probability is not positive the analysis carries the infinite
surprisal sentinel and is flagged as a deviation. -/
theorem bare_probability_negative_spec :
    (lookupProfile (calculate_formula_expectations [⟨"z", 1, "pq"⟩, ⟨"z", 2, "r"⟩]
        [("z", [⟨"p", "p", "epithet", "before", 1, ""⟩,
          ⟨"q", "q", "epithet", "before", 1, ""⟩,
          ⟨"pq", "pq", "half_line", "before", 1, ""⟩])]) "z"
      = some ⟨2, ["p", "q", "pq"]⟩)
    ∧ (⟨2, ["p", "q", "pq"]⟩ : ExpectationProfile).total_mentions
        < (⟨2, ["p", "q", "pq"]⟩ : ExpectationProfile).sum_formula_counts
    ∧ bareProb ⟨2, ["p", "q", "pq"]⟩ = -(1 / 2)
    ∧ analyze_mention_surprisal ⟨"z", 2, "r"⟩
        [("z", [⟨"p", "p", "epithet", "before", 1, ""⟩,
          ⟨"q", "q", "epithet", "before", 1, ""⟩,
          ⟨"pq", "pq", "half_line", "before", 1, ""⟩])]
        (calculate_formula_expectations [⟨"z", 1, "pq"⟩, ⟨"z", 2, "r"⟩]
          [("z", [⟨"p", "p", "epithet", "before", 1, ""⟩,
            ⟨"q", "q", "epithet", "before", 1, ""⟩,
            ⟨"pq", "pq", "half_line", "before", 1, ""⟩])])
      = some ⟨⟨"z", 2, "r"⟩, [], none, "bare_mention", -(1 / 2), ⊤, true⟩
    ∧ (∀ (m : Mention) (idx : PatternIndex) (exp : List (String × ExpectationProfile))
      (prof : ExpectationProfile) (a : MentionAnalysis),
      lookupProfile exp m.character = some prof →
      detect_formulae_in_mention m idx = [] →
      analyze_mention_surprisal m idx exp = some a →
      a.probability ≤ 0 → a.surprisal = ⊤ ∧ a.is_deviation = true) := by
  have hs : (⟨2, ["p", "q", "pq"]⟩ : ExpectationProfile).sum_formula_counts = 3 := by decide
  have hbp : bareProb ⟨2, ["p", "q", "pq"]⟩ = -(1 / 2) := by
    simp only [bareProb, hs]
    norm_num
  have hprof9 : lookupProfile (calculate_formula_expectations [⟨"z", 1, "pq"⟩, ⟨"z", 2, "r"⟩]
      [("z", [⟨"p", "p", "epithet", "before", 1, ""⟩,
        ⟨"q", "q", "epithet", "before", 1, ""⟩,
        ⟨"pq", "pq", "half_line", "before", 1, ""⟩])])
      (⟨"z", 2, "r"⟩ : Mention).character = some ⟨2, ["p", "q", "pq"]⟩ := by decide
  have hdet9 : detect_formulae_in_mention ⟨"z", 2, "r"⟩
      [("z", [⟨"p", "p", "epithet", "before", 1, ""⟩,
        ⟨"q", "q", "epithet", "before", 1, ""⟩,
        ⟨"pq", "pq", "half_line", "before", 1, ""⟩])] = [] := by decide
  refine ⟨hprof9, by decide, hbp, ?_, ?_⟩
  · simp only [analyze_mention_surprisal, hprof9, hdet9, hbp]
    norm_num
  · intro m idx exp prof a hprof hdet ha hle
    simp only [analyze_mention_surprisal, hprof, hdet, Option.some.injEq] at ha
    subst ha
    have hle9 : bareProb prof ≤ 0 := hle
    constructor
    · show (if 0 < bareProb prof then calculate_surprisal (bareProb prof) else ⊤) = ⊤
      exact if_neg (not_lt.mpr hle9)
    · show decide (bareProb prof < 3 / 10) = true
      rw [decide_eq_true_eq]
      exact lt_of_le_of_lt hle9 (by norm_num)

/-- Witness for C10: the general implication applied to the concrete
analysis with bare probability -1/2. -/
theorem bare_probability_negative_spec_witness :
    (⟨⟨"z", 2, "r"⟩, [], none, "bare_mention", -(1 / 2), ⊤, true⟩ :
        MentionAnalysis).surprisal = ⊤
    ∧ (⟨⟨"z", 2, "r"⟩, [], none, "bare_mention", -(1 / 2), ⊤, true⟩ :
        MentionAnalysis).is_deviation = true :=
  bare_probability_negative_spec.2.2.2.2 ⟨"z", 2, "r"⟩
    [("z", [⟨"p", "p", "epithet", "before", 1, ""⟩,
      ⟨"q", "q", "epithet", "before", 1, ""⟩,
      ⟨"pq", "pq", "half_line", "before", 1, ""⟩])]
    (calculate_formula_expectations [⟨"z", 1, "pq"⟩, ⟨"z", 2, "r"⟩]
      [("z", [⟨"p", "p", "epithet", "before", 1, ""⟩,
        ⟨"q", "q", "epithet", "before", 1, ""⟩,
        ⟨"pq", "pq", "half_line", "before", 1, ""⟩])])
    ⟨2, ["p", "q", "pq"]⟩
    ⟨⟨"z", 2, "r"⟩, [], none, "bare_mention", -(1 / 2), ⊤, true⟩
    (by decide) (by decide) bare_probability_negative_spec.2.2.2.1 (by norm_num)

lemma mkAnalysis_surprisal (s : EReal) : (mkAnalysis s).surprisal = s :=
  rfl

/-- C5: the ranker keeps exactly the analyses with surprisal strictly above
the threshold, sorted descending by surprisal, with ties (and in fact all
equal-surprisal groups) kept in original input order; on surprisal values
5, 3, 3, 7 with threshold 3 it returns the 7 and 5 entries in that order. -/
theorem identify_high_surprisal_spec :
    (∀ (l : List MentionAnalysis) (t : EReal),
      (identify_high_surprisal_moments l t).Perm
        (l.filter (fun a => decide (t < a.surprisal))))
    ∧ (∀ (l : List MentionAnalysis) (t : EReal) (a : MentionAnalysis),
      a ∈ identify_high_surprisal_moments l t ↔ a ∈ l ∧ t < a.surprisal)
    ∧ (∀ (l : List MentionAnalysis) (t : EReal),
      (identify_high_surprisal_moments l t).Sorted surprisalGE)
    ∧ (∀ (l : List MentionAnalysis) (t s : EReal),
      (identify_high_surprisal_moments l t).filter (fun a => decide (a.surprisal = s))
        = (l.filter (fun a => decide (t < a.surprisal))).filter
            (fun a => decide (a.surprisal = s)))
    ∧ identify_high_surprisal_moments
        [mkAnalysis ((5 : ℝ) : EReal), mkAnalysis ((3 : ℝ) : EReal),
          mkAnalysis ((3 : ℝ) : EReal), mkAnalysis ((7 : ℝ) : EReal)] ((3 : ℝ) : EReal)
      = [mkAnalysis ((7 : ℝ) : EReal), mkAnalysis ((5 : ℝ) : EReal)] := by
  refine ⟨fun l t => List.perm_insertionSort surprisalGE _,
    fun l t a => ?_, fun l t => List.sorted_insertionSort surprisalGE _,
    fun l t s => ?_, ?_⟩
  · simp [identify_high_surprisal_moments, List.mem_filter]
  · have hall : ∀ a ∈ (l.filter (fun a => decide (t < a.surprisal))).filter
        (fun a => decide (a.surprisal = s)), a.surprisal = s := by
      intro a ha
      have h9 := (List.mem_filter.mp ha).2
      simpa using h9
    have hpair : ((l.filter (fun a => decide (t < a.surprisal))).filter
        (fun a => decide (a.surprisal = s))).Pairwise surprisalGE := by
      apply List.pairwise_of_forall_mem_list
      intro a ha b hb
      show b.surprisal ≤ a.surprisal
      rw [hall a ha, hall b hb]
    have hsub : (l.filter (fun a => decide (t < a.surprisal))).filter
        (fun a => decide (a.surprisal = s))
        |>.Sublist (identify_high_surprisal_moments l t) :=
      List.sublist_insertionSort hpair (List.filter_sublist _)
    have hidem : ((l.filter (fun a => decide (t < a.surprisal))).filter
        (fun a => decide (a.surprisal = s))).filter (fun a => decide (a.surprisal = s))
        = (l.filter (fun a => decide (t < a.surprisal))).filter
            (fun a => decide (a.surprisal = s)) :=
      List.filter_eq_self.mpr (fun a ha => (List.mem_filter.mp ha).2)
    have hsub2 : (l.filter (fun a => decide (t < a.surprisal))).filter
        (fun a => decide (a.surprisal = s))
        |>.Sublist ((identify_high_surprisal_moments l t).filter
          (fun a => decide (a.surprisal = s))) := by
      have h1 := hsub.filter (fun a => decide (a.surprisal = s))
      rwa [hidem] at h1
    have hperm : ((identify_high_surprisal_moments l t).filter
          (fun a => decide (a.surprisal = s))).Perm
        ((l.filter (fun a => decide (t < a.surprisal))).filter
          (fun a => decide (a.surprisal = s))) :=
      (List.perm_insertionSort surprisalGE _).filter _
    exact (hsub2.eq_of_length hperm.length_eq.symm).symm
  · have e35 : ((3 : ℝ) : EReal) < ((5 : ℝ) : EReal) := by
      rw [EReal.coe_lt_coe_iff]
      norm_num
    have e37 : ((3 : ℝ) : EReal) < ((7 : ℝ) : EReal) := by
      rw [EReal.coe_lt_coe_iff]
      norm_num
    have e33 : ¬ ((3 : ℝ) : EReal) < ((3 : ℝ) : EReal) := lt_irrefl _
    have e75 : ¬ surprisalGE (mkAnalysis ((5 : ℝ) : EReal)) (mkAnalysis ((7 : ℝ) : EReal)) := by
      show ¬ ((7 : ℝ) : EReal) ≤ ((5 : ℝ) : EReal)
      rw [EReal.coe_le_coe_iff]
      norm_num
    have hfil : ([mkAnalysis ((5 : ℝ) : EReal), mkAnalysis ((3 : ℝ) : EReal),
        mkAnalysis ((3 : ℝ) : EReal), mkAnalysis ((7 : ℝ) : EReal)]).filter
          (fun a => decide (((3 : ℝ) : EReal) < a.surprisal))
        = [mkAnalysis ((5 : ℝ) : EReal), mkAnalysis ((7 : ℝ) : EReal)] := by
      simp only [List.filter_cons, List.filter_nil, mkAnalysis_surprisal,
        decide_eq_true e35, decide_eq_true e37, decide_eq_false e33]
      simp
    show List.insertionSort surprisalGE
        (([mkAnalysis ((5 : ℝ) : EReal), mkAnalysis ((3 : ℝ) : EReal),
          mkAnalysis ((3 : ℝ) : EReal), mkAnalysis ((7 : ℝ) : EReal)]).filter
            (fun a => decide (((3 : ℝ) : EReal) < a.surprisal)))
      = [mkAnalysis ((7 : ℝ) : EReal), mkAnalysis ((5 : ℝ) : EReal)]
    rw [hfil]
    simp only [List.insertionSort, List.orderedInsert]
    rw [if_neg e75]

lemma detect_eq_filter (m : Mention) (idx : PatternIndex) (recs : List FormulaRecord)
    (hrec : lookupIndex idx m.character = some recs) :
    detect_formulae_in_mention m idx
      = recs.filter (fun f => substrB f.pattern (strLower m.line)) := by
  unfold detect_formulae_in_mention
  rw [hrec]

lemma charProfile_total (mentions : List Mention) (idx : PatternIndex) (c : String) :
    (charProfile mentions idx c).total_mentions
      = (mentions.filter (fun m => m.character == c)).length :=
  rfl

lemma charProfile_stream (mentions : List Mention) (idx : PatternIndex) (c : String) :
    (charProfile mentions idx c).detection_stream
      = (mentions.filter (fun m => m.character == c)).flatMap
          (fun m => (detect_formulae_in_mention m idx).map (fun f => f.pattern)) :=
  rfl

lemma lookupProfile_map_keyed (g : String → ExpectationProfile)
    (E : List (String × List FormulaRecord)) (c : String) :
    lookupProfile (E.map (fun e => (e.1, g e.1))) c
      = (lookupIndex E c).map (fun _ => g c) := by
  induction E with
  | nil => rfl
  | cons e rest ih =>
    by_cases h : e.1 == c
    · have hc : e.1 = c := by simpa using h
      subst hc
      simp [lookupProfile, lookupIndex, List.find?_cons, h]
    · simp only [lookupProfile, lookupIndex, List.map_cons, List.find?_cons, h] at ih ⊢
      exact ih

lemma lookupProfile_calculate (mentions : List Mention) (idx : PatternIndex) (c : String) :
    lookupProfile (calculate_formula_expectations mentions idx) c
      = (lookupIndex idx c).map (fun _ => charProfile mentions idx c) :=
  lookupProfile_map_keyed (charProfile mentions idx) idx c

lemma count_detect_patterns (m : Mention) (idx : PatternIndex) (recs : List FormulaRecord)
    (p : String) (hrec : lookupIndex idx m.character = some recs)
    (hnd : (recs.map (fun f => f.pattern)).Nodup) :
    ((detect_formulae_in_mention m idx).map (fun f => f.pattern)).count p
      = if (detect_formulae_in_mention m idx).any (fun f => f.pattern == p) = true
          then 1 else 0 := by
  have hsl : ((detect_formulae_in_mention m idx).map (fun f => f.pattern)).Sublist
      (recs.map (fun f => f.pattern)) := by
    rw [detect_eq_filter m idx recs hrec]
    exact (List.filter_sublist recs).map _
  have hnd2 : ((detect_formulae_in_mention m idx).map (fun f => f.pattern)).Nodup :=
    hnd.sublist hsl
  by_cases hp : (detect_formulae_in_mention m idx).any (fun f => f.pattern == p) = true
  · rw [if_pos hp]
    rw [List.any_eq_true] at hp
    obtain ⟨f, hf, hfp⟩ := hp
    have hfp9 : f.pattern = p := by simpa using hfp
    have hmem : p ∈ (detect_formulae_in_mention m idx).map (fun f => f.pattern) :=
      List.mem_map.mpr ⟨f, hf, hfp9⟩
    have h1 : 0 < ((detect_formulae_in_mention m idx).map (fun f => f.pattern)).count p :=
      List.count_pos_iff.mpr hmem
    have h2 : ((detect_formulae_in_mention m idx).map (fun f => f.pattern)).count p ≤ 1 :=
      List.nodup_iff_count_le_one.mp hnd2 p
    omega
  · rw [if_neg hp]
    rw [List.count_eq_zero]
    intro hmem
    apply hp
    rw [List.any_eq_true]
    obtain ⟨f, hf, hfp⟩ := List.mem_map.mp hmem
    exact ⟨f, hf, by simpa using hfp⟩

lemma count_flatMap_detect (idx : PatternIndex) (recs : List FormulaRecord) (c p : String)
    (hrec : lookupIndex idx c = some recs)
    (hnd : (recs.map (fun f => f.pattern)).Nodup) :
    ∀ ms : List Mention, (∀ m ∈ ms, m.character = c) →
    (ms.flatMap (fun m => (detect_formulae_in_mention m idx).map (fun f => f.pattern))).count p
      = (ms.filter
          (fun m => (detect_formulae_in_mention m idx).any (fun f => f.pattern == p))).length := by
  intro ms
  induction ms with
  | nil => intro _; rfl
  | cons m ms ih =>
    intro hall
    have hm : m.character = c := hall m (List.mem_cons_self m ms)
    have hrec9 : lookupIndex idx m.character = some recs := by
      rw [hm]
      exact hrec
    have ih9 := ih (fun x hx => hall x (List.mem_cons_of_mem m hx))
    rw [List.flatMap_cons, List.count_append, count_detect_patterns m idx recs p hrec9 hnd,
      List.filter_cons, ih9]
    by_cases hp : (detect_formulae_in_mention m idx).any (fun f => f.pattern == p) = true
    · simp only [hp, if_true]
      rw [List.length_cons]
      omega
    · simp [hp]

lemma sum_map_div_q (l : List String) (f : String → ℕ) (d : ℚ) :
    (l.map (fun x => (f x : ℚ) / d)).sum = (((l.map f).sum : ℕ) : ℚ) / d := by
  induction l with
  | nil => simp
  | cons x xs ih =>
    rw [List.map_cons, List.sum_cons, List.map_cons, List.sum_cons, ih]
    push_cast
    rw [add_div]

lemma stream_length_le (idx : PatternIndex) (recs : List FormulaRecord) (c : String)
    (hrec : lookupIndex idx c = some recs) :
    ∀ ms : List Mention, (∀ m ∈ ms, m.character = c) →
    (ms.flatMap (fun m => (detect_formulae_in_mention m idx).map (fun f => f.pattern))).length
      ≤ ms.length * recs.length := by
  intro ms
  induction ms with
  | nil => intro _; simp
  | cons m ms ih =>
    intro hall
    have hm : m.character = c := hall m (List.mem_cons_self m ms)
    have hrec9 : lookupIndex idx m.character = some recs := by
      rw [hm]
      exact hrec
    have hd : ((detect_formulae_in_mention m idx).map (fun f => f.pattern)).length
        ≤ recs.length := by
      rw [List.length_map, detect_eq_filter m idx recs hrec9]
      exact List.length_filter_le _ _
    have ih9 := ih (fun x hx => hall x (List.mem_cons_of_mem m hx))
    rw [List.flatMap_cons, List.length_append, List.length_cons]
    calc ((detect_formulae_in_mention m idx).map (fun f => f.pattern)).length
          + (ms.flatMap (fun m => (detect_formulae_in_mention m idx).map
              (fun f => f.pattern))).length
        ≤ recs.length + ms.length * recs.length := Nat.add_le_add hd ih9
      _ = (ms.length + 1) * recs.length := by ring

/-- C2 counterexample: the same pattern listed twice for a character (for
example under two formula types) is counted once per record, so a pattern
detected in exactly 1 of 1 mentions gets probability 2, not 1/1. -/
theorem formula_probabilities_duplicate_cex :
    (lookupProfile (calculate_formula_expectations [⟨"z", 1, "xax"⟩]
        (build_formula_patterns [("z", ⟨[("epithet", [⟨"a", 5, "before", ""⟩]),
          ("speech_formula", [⟨"a", 7, "before", ""⟩])]⟩)])) "z"
      = some ⟨1, ["a", "a"]⟩)
    ∧ mentions_detecting [⟨"z", 1, "xax"⟩]
        (build_formula_patterns [("z", ⟨[("epithet", [⟨"a", 5, "before", ""⟩]),
          ("speech_formula", [⟨"a", 7, "before", ""⟩])]⟩)]) "z" "a" = 1
    ∧ (⟨1, ["a", "a"]⟩ : ExpectationProfile).formula_probabilities "a" = 2
    ∧ ¬ (⟨1, ["a", "a"]⟩ : ExpectationProfile).formula_probabilities "a"
        = ((1 : ℕ) : ℚ) / ((1 : ℕ) : ℚ) := by
  have hc : (⟨1, ["a", "a"]⟩ : ExpectationProfile).formula_counts "a" = 2 := by decide
  have hp : (⟨1, ["a", "a"]⟩ : ExpectationProfile).formula_probabilities "a" = 2 := by
    rw [ExpectationProfile.formula_probabilities, hc]
    norm_num
  refine ⟨by decide, by decide, hp, ?_⟩
  rw [hp]
  norm_num

/-- C2 (amended): when the character's pattern list carries no duplicate
patterns, a pattern detected in exactly k of the character's N > 0
mentions has probability exactly k / N, and the probability is 0 when
N = 0. -/
theorem formula_probabilities_fraction (mentions : List Mention) (idx : PatternIndex)
    (c p : String) (recs : List FormulaRecord) (prof : ExpectationProfile)
    (hrec : lookupIndex idx c = some recs)
    (hnd : (recs.map (fun f => f.pattern)).Nodup)
    (hprof : lookupProfile (calculate_formula_expectations mentions idx) c = some prof) :
    (0 < prof.total_mentions →
      prof.formula_probabilities p
        = ((mentions_detecting mentions idx c p : ℕ) : ℚ) / ((prof.total_mentions : ℕ) : ℚ))
    ∧ (prof.total_mentions = 0 → prof.formula_probabilities p = 0) := by
  rw [lookupProfile_calculate, hrec] at hprof
  have hp9 : prof = charProfile mentions idx c := by
    simpa using hprof.symm
  subst hp9
  have hchar : ∀ m ∈ mentions.filter (fun m => m.character == c), m.character = c := by
    intro m hm
    simpa using (List.mem_filter.mp hm).2
  have hcount : (charProfile mentions idx c).formula_counts p
      = mentions_detecting mentions idx c p := by
    rw [ExpectationProfile.formula_counts, charProfile_stream,
      count_flatMap_detect idx recs c p hrec hnd _ hchar]
    rfl
  constructor
  · intro hN
    rw [ExpectationProfile.formula_probabilities, if_pos hN, hcount]
  · intro h0
    rw [ExpectationProfile.formula_probabilities, if_neg (by omega)]

/-- Witness for C2 (amended): a single distinct pattern detected in 1 of 2
mentions. -/
theorem formula_probabilities_fraction_witness :
    (0 < (⟨2, ["a"]⟩ : ExpectationProfile).total_mentions →
      (⟨2, ["a"]⟩ : ExpectationProfile).formula_probabilities "a"
        = ((mentions_detecting [⟨"z", 1, "xa"⟩, ⟨"z", 2, "q"⟩]
            [("z", [⟨"a", "a", "epithet", "before", 3, ""⟩])] "z" "a" : ℕ) : ℚ)
          / (((⟨2, ["a"]⟩ : ExpectationProfile).total_mentions : ℕ) : ℚ))
    ∧ ((⟨2, ["a"]⟩ : ExpectationProfile).total_mentions = 0 →
      (⟨2, ["a"]⟩ : ExpectationProfile).formula_probabilities "a" = 0) :=
  formula_probabilities_fraction [⟨"z", 1, "xa"⟩, ⟨"z", 2, "q"⟩]
    [("z", [⟨"a", "a", "epithet", "before", 3, ""⟩])] "z" "a"
    [⟨"a", "a", "epithet", "before", 3, ""⟩] ⟨2, ["a"]⟩
    (by decide) (by decide) (by decide)

/-- C6 counterexample: two distinct patterns that co-occur in the same
single mention each get probability 1, so the probability values sum to 2,
exceeding 1. -/
theorem probabilities_sum_gt_one_cex :
    (lookupProfile (calculate_formula_expectations [⟨"z", 1, "ab"⟩]
        [("z", [⟨"a", "a", "epithet", "before", 1, ""⟩,
          ⟨"b", "b", "epithet", "before", 1, ""⟩])]) "z"
      = some ⟨1, ["a", "b"]⟩)
    ∧ (["a", "b"] : List String).Nodup
    ∧ probabilities_sum ⟨1, ["a", "b"]⟩ = 2
    ∧ ¬ probabilities_sum ⟨1, ["a", "b"]⟩ ≤ 1 := by
  have hca : (⟨1, ["a", "b"]⟩ : ExpectationProfile).formula_counts "a" = 1 := by decide
  have hcb : (⟨1, ["a", "b"]⟩ : ExpectationProfile).formula_counts "b" = 1 := by decide
  have hpa : (⟨1, ["a", "b"]⟩ : ExpectationProfile).formula_probabilities "a" = 1 := by
    rw [ExpectationProfile.formula_probabilities, hca]
    norm_num
  have hpb : (⟨1, ["a", "b"]⟩ : ExpectationProfile).formula_probabilities "b" = 1 := by
    rw [ExpectationProfile.formula_probabilities, hcb]
    norm_num
  have hd : (⟨1, ["a", "b"]⟩ : ExpectationProfile).detection_stream.dedup = ["a", "b"] := by
    decide
  have hs : probabilities_sum ⟨1, ["a", "b"]⟩ = 2 := by
    rw [probabilities_sum, hd, List.map_cons, List.map_cons, List.map_nil, hpa, hpb]
    norm_num
  refine ⟨by decide, by decide, hs, ?_⟩
  rw [hs]
  norm_num

/-- C6 (amended): the probability values of a character's profile sum to at
most the number of the character's formula records; because distinct
formulae may co-occur in one mention, the sum is not bounded by 1. -/
theorem probabilities_sum_le_card (mentions : List Mention) (idx : PatternIndex)
    (c : String) (recs : List FormulaRecord) (prof : ExpectationProfile)
    (hrec : lookupIndex idx c = some recs)
    (hprof : lookupProfile (calculate_formula_expectations mentions idx) c = some prof) :
    probabilities_sum prof ≤ ((recs.length : ℕ) : ℚ) := by
  rw [lookupProfile_calculate, hrec] at hprof
  have hp9 : prof = charProfile mentions idx c := by
    simpa using hprof.symm
  subst hp9
  by_cases hN : 0 < (charProfile mentions idx c).total_mentions
  · have hfp : ∀ q : String, (charProfile mentions idx c).formula_probabilities q
        = ((charProfile mentions idx c).formula_counts q : ℚ)
          / ((charProfile mentions idx c).total_mentions : ℚ) := by
      intro q
      rw [ExpectationProfile.formula_probabilities, if_pos hN]
    rw [probabilities_sum]
    simp only [hfp, ExpectationProfile.formula_counts]
    rw [sum_map_div_q, List.sum_map_count_dedup_eq_length]
    have hchar : ∀ m ∈ mentions.filter (fun m => m.character == c), m.character = c := by
      intro m hm
      simpa using (List.mem_filter.mp hm).2
    have hlen : (charProfile mentions idx c).detection_stream.length
        ≤ (charProfile mentions idx c).total_mentions * recs.length := by
      rw [charProfile_stream, charProfile_total]
      exact stream_length_le idx recs c hrec _ hchar
    rw [div_le_iff₀ (by exact_mod_cast hN)]
    calc ((charProfile mentions idx c).detection_stream.length : ℚ)
        ≤ (((charProfile mentions idx c).total_mentions * recs.length : ℕ) : ℚ) := by
          exact_mod_cast hlen
      _ = ((recs.length : ℕ) : ℚ) * ((charProfile mentions idx c).total_mentions : ℚ) := by
          push_cast
          ring
  · rw [probabilities_sum]
    have hz : ∀ q : String, (charProfile mentions idx c).formula_probabilities q = 0 := by
      intro q
      rw [ExpectationProfile.formula_probabilities, if_neg hN]
    have hsum : ((charProfile mentions idx c).detection_stream.dedup.map
        (fun q => (charProfile mentions idx c).formula_probabilities q)).sum = 0 := by
      apply List.sum_eq_zero
      intro x hx
      obtain ⟨q, _, rfl⟩ := List.mem_map.mp hx
      exact hz q
    rw [hsum]
    positivity

/-- Witness for C6 (amended): the co-occurrence counterexample input still
satisfies the corrected bound, 2 probabilities summing to 2 = number of
records. -/
theorem probabilities_sum_le_card_witness :
    probabilities_sum ⟨1, ["a", "b"]⟩
      ≤ ((([⟨"a", "a", "epithet", "before", 1, ""⟩,
          ⟨"b", "b", "epithet", "before", 1, ""⟩] : List FormulaRecord).length : ℕ) : ℚ) :=
  probabilities_sum_le_card [⟨"z", 1, "ab"⟩]
    [("z", [⟨"a", "a", "epithet", "before", 1, ""⟩,
      ⟨"b", "b", "epithet", "before", 1, ""⟩])] "z"
    [⟨"a", "a", "epithet", "before", 1, ""⟩, ⟨"b", "b", "epithet", "before", 1, ""⟩]
    ⟨1, ["a", "b"]⟩ (by decide) (by decide)

/-- C8 counterexample: an analysis whose finite surprisal is exactly 999
serialises to the stored number 999 although its surprisal is not the
infinity sentinel, so "stored = 999 iff surprisal is infinite" fails. -/
theorem serialize_surprisal_999_cex :
    (serialize_analysis (mkAnalysis ((999 : ℝ) : EReal))).surprisal = 999
    ∧ ¬ (mkAnalysis ((999 : ℝ) : EReal)).surprisal = ⊤ := by
  constructor
  · show (if ((999 : ℝ) : EReal) = ⊤ then (999 : ℝ)
      else ((999 : ℝ) : EReal).toReal) = 999
    rw [if_neg (EReal.coe_ne_top _), EReal.toReal_coe]
  · exact EReal.coe_ne_top _

/-- C8 (amended): serialisation stores 999 for an infinite surprisal and
the finite surprisal value unchanged otherwise; consequently the stored
field is 999 exactly when the surprisal is infinite or is the finite value
999 itself (the sentinel is lossy at that one collision point). -/
theorem serialize_surprisal_spec :
    ∀ a : MentionAnalysis,
      ((serialize_analysis a).surprisal
        = if a.surprisal = ⊤ then (999 : ℝ) else a.surprisal.toReal)
      ∧ (a.surprisal = ⊤ → (serialize_analysis a).surprisal = 999)
      ∧ (∀ x : ℝ, a.surprisal = (x : EReal) → (serialize_analysis a).surprisal = x)
      ∧ ((serialize_analysis a).surprisal = 999
          ↔ a.surprisal = ⊤ ∨ a.surprisal = ((999 : ℝ) : EReal)) := by
  intro a
  refine ⟨rfl, fun h => ?_, fun x hx => ?_, ?_⟩
  · show (if a.surprisal = ⊤ then (999 : ℝ) else a.surprisal.toReal) = 999
    rw [if_pos h]
  · show (if a.surprisal = ⊤ then (999 : ℝ) else a.surprisal.toReal) = x
    rw [hx, if_neg (EReal.coe_ne_top x), EReal.toReal_coe]
  · show (if a.surprisal = ⊤ then (999 : ℝ) else a.surprisal.toReal) = 999
      ↔ a.surprisal = ⊤ ∨ a.surprisal = ((999 : ℝ) : EReal)
    induction a.surprisal using EReal.rec with
    | h_bot =>
      rw [if_neg bot_ne_top, EReal.toReal_bot]
      constructor
      · intro h
        norm_num at h
      · rintro (h | h)
        · exact absurd h bot_ne_top
        · exact absurd h.symm (EReal.coe_ne_bot _)
    | h_real x =>
      rw [if_neg (EReal.coe_ne_top x), EReal.toReal_coe]
      constructor
      · intro h
        right
        exact_mod_cast congrArg (fun y : ℝ => (y : EReal)) h
      · rintro (h | h)
        · exact absurd h (EReal.coe_ne_top x)
        · exact_mod_cast h
    | h_top =>
      rw [if_pos rfl]
      simp

/-- Witness for C8 (amended): an infinite-surprisal analysis stores the
sentinel 999. -/
theorem serialize_surprisal_spec_witness :
    (serialize_analysis (mkAnalysis ⊤)).surprisal = 999 :=
  (serialize_surprisal_spec (mkAnalysis ⊤)).2.1 rfl

end Homeric
